import Mathlib

/-!
Verification of the pure string layer of the wasm-cookies library
(`src/cookies.rs`): parsing of cookie strings (`all_raw`, `all`, `get_raw`,
`get`) and serialization (`set_raw`, `set`, `delete_raw`, `delete`).

Rust strings are modelled at the byte level as `List Nat` (each element a
UTF-8 byte of the string).  All delimiters used by the code (`;`, `=`) and
the characters appearing in the claims are ASCII, so byte-level splitting
matches Rust's `str::split` on these characters exactly.  `str::trim` is
modelled as trimming ASCII whitespace bytes (0x09-0x0D, 0x20); multi-byte
Unicode whitespace is outside the scope of the claims.
-/

namespace WasmCookies

/-- Rust string, as its list of UTF-8 bytes. -/
abbrev Str := List Nat

/-- Bytes of an ASCII string literal (every literal used below is ASCII,
so the char code is the byte). -/
def asciiStr (s : String) : Str := s.data.map Char.toNat

/-- ASCII whitespace bytes, as recognised by Rust's `char::is_whitespace`
in the ASCII range: 0x09..0x0D and 0x20. -/
def isWsp (b : Nat) : Bool := (9 ≤ b && b ≤ 13) || b = 32

/-- Model of Rust `str::trim` (ASCII whitespace). -/
def trimBytes (s : Str) : Str := ((s.dropWhile isWsp).reverse.dropWhile isWsp).reverse

/-- Model of Rust `str::split(c)`: split a byte string on a separator byte.
Like Rust, splitting the empty string yields one empty segment. -/
def splitOnByte (c : Nat) : Str → List Str
  | [] => [[]]
  | b :: rest =>
    if b = c then [] :: splitOnByte c rest
    else
      match splitOnByte c rest with
      | s :: ss => (b :: s) :: ss
      | [] => [[b]]

/-! ## The percent-encoding collaborator (the `urlencoding` crate)

Modelled from the spec's description of the external percent-encoding
facility (§6): `encode` percent-encodes every byte except ASCII
alphanumerics and `-`, `_`, `.`, `~` (space becomes `%20`, uppercase hex);
`decode` turns `%XX` hex escapes back into bytes, failing on a malformed
percent sequence, and fails when the decoded bytes are not valid UTF-8
(e.g. `%AA`). -/

/-- Error type of the collaborator's `decode` (`FromUrlEncodingError`). -/
inductive FromUrlEncodingError
  | UriCharacterError
  | Utf8CharacterError
deriving DecidableEq, Repr

/-- Value of a hex digit byte, if it is one. -/
def hexVal (b : Nat) : Option Nat :=
  if 48 ≤ b ∧ b ≤ 57 then some (b - 48)
  else if 65 ≤ b ∧ b ≤ 70 then some (b - 55)
  else if 97 ≤ b ∧ b ≤ 102 then some (b - 87)
  else none

/-- Uppercase hex digit byte for a nibble. -/
def hexDigit (n : Nat) : Nat := if n < 10 then 48 + n else 55 + n

/-- `true` for the bytes `encode` leaves unescaped:
ASCII alphanumerics and `-` `_` `.` `~`. -/
def unreservedByte (b : Nat) : Bool :=
  (48 ≤ b && b ≤ 57) || (65 ≤ b && b ≤ 90) || (97 ≤ b && b ≤ 122)
    || b = 45 || b = 95 || b = 46 || b = 126

/-- Encoding of a single byte: itself if unreserved, else `%XX`. -/
def encByte (b : Nat) : Str :=
  if unreservedByte b then [b] else [37, hexDigit (b / 16), hexDigit (b % 16)]

/-- Model of `urlencoding::encode`. -/
def urlencode (s : Str) : Str := (s.map encByte).flatten

/-- Percent-unescape: turn `%XX` sequences into bytes, failing on a `%` not
followed by two hex digits. -/
def percentParse : Str → Except FromUrlEncodingError Str
  | [] => .ok []
  | b :: rest =>
    if b = 37 then
      match rest with
      | h1 :: h2 :: rest2 =>
        match hexVal h1, hexVal h2 with
        | some v1, some v2 =>
          match percentParse rest2 with
          | .ok t => .ok ((16 * v1 + v2) :: t)
          | .error e => .error e
        | _, _ => .error FromUrlEncodingError.UriCharacterError
      | _ => .error FromUrlEncodingError.UriCharacterError
    else
      match percentParse rest with
      | .ok t => .ok (b :: t)
      | .error e => .error e

/-- `true` for a continuation byte 0x80..0xBF. -/
def isCont (b : Nat) : Bool := 128 ≤ b && b ≤ 191

/-- UTF-8 validity of a byte sequence (as checked by Rust's
`String::from_utf8`). -/
def utf8Valid : List Nat → Bool
  | [] => true
  | b :: rest =>
    if b ≤ 127 then utf8Valid rest
    else if 194 ≤ b && b ≤ 223 then
      match rest with
      | b2 :: r => isCont b2 && utf8Valid r
      | [] => false
    else if b = 224 then
      match rest with
      | b2 :: b3 :: r => (160 ≤ b2 && b2 ≤ 191) && isCont b3 && utf8Valid r
      | _ => false
    else if (225 ≤ b && b ≤ 236) || (238 ≤ b && b ≤ 239) then
      match rest with
      | b2 :: b3 :: r => isCont b2 && isCont b3 && utf8Valid r
      | _ => false
    else if b = 237 then
      match rest with
      | b2 :: b3 :: r => (128 ≤ b2 && b2 ≤ 159) && isCont b3 && utf8Valid r
      | _ => false
    else if b = 240 then
      match rest with
      | b2 :: b3 :: b4 :: r =>
        (144 ≤ b2 && b2 ≤ 191) && isCont b3 && isCont b4 && utf8Valid r
      | _ => false
    else if 241 ≤ b && b ≤ 243 then
      match rest with
      | b2 :: b3 :: b4 :: r => isCont b2 && isCont b3 && isCont b4 && utf8Valid r
      | _ => false
    else if b = 244 then
      match rest with
      | b2 :: b3 :: b4 :: r =>
        (128 ≤ b2 && b2 ≤ 143) && isCont b3 && isCont b4 && utf8Valid r
      | _ => false
    else false

/-- Model of `urlencoding::decode`: percent-unescape, then require the
result to be valid UTF-8. -/
def urldecode (s : Str) : Except FromUrlEncodingError Str :=
  match percentParse s with
  | .ok bs => if utf8Valid bs then .ok bs else .error FromUrlEncodingError.Utf8CharacterError
  | .error e => .error e

/-- Every byte of a Rust string is a `u8`. -/
def ByteStr (s : Str) : Prop := ∀ b ∈ s, b < 256

instance (s : Str) : Decidable (ByteStr s) := by
  unfold ByteStr; infer_instance

/-! ## The parser (`src/cookies.rs`) -/

/-- `AllDecodeError` from `src/cookies.rs`: a decode failure on a key
(carrying the raw key) or on a value (carrying the decoded key). -/
inductive AllDecodeError
  | Key : Str → FromUrlEncodingError → AllDecodeError
  | Value : Str → FromUrlEncodingError → AllDecodeError
deriving DecidableEq, Repr

/-- `process_key_value_str` from `src/cookies.rs`: take the first two
pieces of `split('=')` as key and value, trimmed; error when there is no
second piece (no `=` in the segment). -/
def process_key_value_str (key_value_str : Str) : Except Unit (Str × Str) :=
  match splitOnByte 61 key_value_str with
  | key :: value :: _ => .ok (trimBytes key, trimBytes value)
  | _ => .error ()

/-- `all_iter_raw` from `src/cookies.rs`: split the cookie string on `;`
and keep the segments that parse as a key-value pair, in order. -/
def all_iter_raw (cookie_string : Str) : List (Str × Str) :=
  (splitOnByte 59 cookie_string).filterMap
    (fun key_value_str =>
      match process_key_value_str key_value_str with
      | .ok (key, value) => some (key, value)
      | .error _ => none)

/-- The per-pair decoding step of `all_iter` from `src/cookies.rs`:
decode the key first (failure: `Key` with the raw key), then the value
(failure: `Value` with the decoded key). -/
def decodePair (p : Str × Str) : Except AllDecodeError (Str × Str) :=
  match urldecode p.1 with
  | .ok key =>
    match urldecode p.2 with
    | .ok value => .ok (key, value)
    | .error error => .error (AllDecodeError.Value key error)
  | .error error => .error (AllDecodeError.Key p.1 error)

/-- `all_iter` from `src/cookies.rs`. -/
def all_iter (cookie_string : Str) : List (Except AllDecodeError (Str × Str)) :=
  (all_iter_raw cookie_string).map decodePair

/-- Rust `HashMap` insert on the association-list model of a map with
unique keys: overwrite the entry if the key is present, else append. -/
def insertKV (k v : Str) : List (Str × Str) → List (Str × Str)
  | [] => [(k, v)]
  | (k2, v2) :: rest => if k2 = k then (k, v) :: rest else (k2, v2) :: insertKV k v rest

/-- Lookup in the association-list model of `HashMap`. -/
def lookupKV (k : Str) : List (Str × Str) → Option Str
  | [] => none
  | (k2, v) :: rest => if k2 = k then some v else lookupKV k rest

/-- `all_raw` from `src/cookies.rs`: collect the raw pairs into a map
(`HashMap` insertion overwrites, so a later duplicate key wins). -/
def all_raw (cookie_string : Str) : List (Str × Str) :=
  (all_iter_raw cookie_string).foldl (fun m p => insertKV p.1 p.2 m) []

/-- Rust's `collect::<Result<HashMap, E>>`: insert the `Ok` items in
order, stopping at the first `Err`. -/
def collectKV : List (Except AllDecodeError (Str × Str)) → List (Str × Str) →
    Except AllDecodeError (List (Str × Str))
  | [], m => .ok m
  | .error e :: _, _ => .error e
  | .ok p :: rest, m => collectKV rest (insertKV p.1 p.2 m)

/-- `all` from `src/cookies.rs`. -/
def all (cookie_string : Str) : Except AllDecodeError (List (Str × Str)) :=
  collectKV (all_iter cookie_string) []

/-- The first `error` in a list of per-pair decode results, in list order. -/
def firstErr (l : List (Except AllDecodeError (Str × Str))) : Option AllDecodeError :=
  l.findSome? fun x =>
    match x with
    | .error e => some e
    | .ok _ => none

/-- `get_raw` from `src/cookies.rs`: first segment whose key equals
`name`, its value. -/
def get_raw (cookie_string name : Str) : Option Str :=
  (splitOnByte 59 cookie_string).findSome?
    (fun key_value_str =>
      match process_key_value_str key_value_str with
      | .ok (key, value) => if key = name then some value else none
      | .error _ => none)

/-- `get` from `src/cookies.rs`: encode `name`, find the first segment
whose raw key equals it, and decode that segment's value. -/
def get (cookie_string name : Str) : Option (Except FromUrlEncodingError Str) :=
  (splitOnByte 59 cookie_string).findSome?
    (fun key_value_str =>
      match process_key_value_str key_value_str with
      | .ok (key, value) =>
        if key = urlencode name then some (urldecode value) else none
      | .error _ => none)

/-! ## The serializer (`src/cookies.rs`) -/

/-- `SameSite` from `src/cookies.rs`. -/
inductive SameSite
  | Lax
  | Strict
  | None
deriving DecidableEq, Repr

/-- `SameSite::cookie_string_value`. -/
def SameSite.cookie_string_value : SameSite → Str
  | .Lax => asciiStr "lax"
  | .Strict => asciiStr "strict"
  | .None => asciiStr "none"

/-- `CookieOptions` from `src/cookies.rs`. -/
structure CookieOptions where
  path : Option Str
  domain : Option Str
  expires : Option Str
  secure : Bool
  same_site : SameSite
deriving DecidableEq, Repr

/-- `CookieOptions::default()`. -/
def CookieOptions.default : CookieOptions := ⟨none, none, none, false, SameSite.Lax⟩

/-- `CookieOptions::with_path`. -/
def CookieOptions.with_path (o : CookieOptions) (p : Str) : CookieOptions :=
  ⟨some p, o.domain, o.expires, o.secure, o.same_site⟩

/-- `CookieOptions::with_domain`. -/
def CookieOptions.with_domain (o : CookieOptions) (d : Str) : CookieOptions :=
  ⟨o.path, some d, o.expires, o.secure, o.same_site⟩

/-- `CookieOptions::expires_at_date`, with the formatted GMT date string
(produced by the external date collaborator) taken as the argument. -/
def CookieOptions.with_expires (o : CookieOptions) (e : Str) : CookieOptions :=
  ⟨o.path, o.domain, some e, o.secure, o.same_site⟩

/-- `CookieOptions::secure`. -/
def CookieOptions.set_secure (o : CookieOptions) : CookieOptions :=
  ⟨o.path, o.domain, o.expires, true, o.same_site⟩

/-- `CookieOptions::with_same_site`. -/
def CookieOptions.with_same_site (o : CookieOptions) (s : SameSite) : CookieOptions :=
  ⟨o.path, o.domain, o.expires, o.secure, s⟩

/-- `set_raw` from `src/cookies.rs`: `name=value`, then the optional
attributes in the fixed order path, domain, expires, secure, and finally
always `;samesite=<value>`. -/
def set_raw (name value : Str) (options : CookieOptions) : Str :=
  name ++ [61] ++ value
    ++ (match options.path with
        | some p => asciiStr ";path=" ++ p
        | none => [])
    ++ (match options.domain with
        | some d => asciiStr ";domain=" ++ d
        | none => [])
    ++ (match options.expires with
        | some e => asciiStr ";expires=" ++ e
        | none => [])
    ++ (if options.secure then asciiStr ";secure" else [])
    ++ asciiStr ";samesite=" ++ options.same_site.cookie_string_value

/-- `set` from `src/cookies.rs`. -/
def set (name value : Str) (options : CookieOptions) : Str :=
  set_raw (urlencode name) (urlencode value) options

/-- `delete_raw` from `src/cookies.rs`. -/
def delete_raw (name : Str) : Str :=
  name ++ asciiStr "=;expires=Thu, 01 Jan 1970 00:00:00 GMT"

/-- `delete` from `src/cookies.rs`. -/
def delete (name : Str) : Str := delete_raw (urlencode name)

end WasmCookies

namespace WasmCookies

/-! ## Helper lemmas -/

theorem splitOnByte_not_mem (c : Nat) (s : Str) (h : ¬ c ∈ s) : splitOnByte c s = [s] := by
  induction s with
  | nil => rfl
  | cons b rest ih =>
    rw [List.mem_cons, not_or] at h
    rw [splitOnByte, if_neg (fun hb => h.1 hb.symm), ih h.2]

theorem splitOnByte_append (c : Nat) (xs ys : Str) (h : ¬ c ∈ xs) :
    splitOnByte c (xs ++ c :: ys) = xs :: splitOnByte c ys := by
  induction xs with
  | nil => simp [splitOnByte]
  | cons b rest ih =>
    rw [List.mem_cons, not_or] at h
    rw [List.cons_append, splitOnByte, if_neg (fun hb => h.1 hb.symm), ih h.2]

theorem dropWhile_eq_self_of (p : Nat → Bool) (s : Str) (h : ∀ b ∈ s, p b = false) :
    s.dropWhile p = s := by
  cases s with
  | nil => rfl
  | cons b rest => rw [List.dropWhile_cons, h b (List.mem_cons_self b rest)]; simp

theorem trimBytes_eq_self (s : Str) (h : ∀ b ∈ s, isWsp b = false) : trimBytes s = s := by
  unfold trimBytes
  rw [dropWhile_eq_self_of _ _ h,
    dropWhile_eq_self_of _ _ (fun b hb => h b (List.mem_reverse.mp hb)),
    List.reverse_reverse]

theorem hexDigit_range (n : Nat) : 48 ≤ hexDigit n ∧ (hexDigit n ≤ 57 ∨ 65 ≤ hexDigit n) := by
  unfold hexDigit; split <;> omega

theorem isWsp_eq_false (b : Nat) (h : 33 ≤ b) : isWsp b = false := by
  unfold isWsp
  rw [Bool.or_eq_false_iff, Bool.and_eq_false_iff]
  refine ⟨?_, ?_⟩
  · right; rw [decide_eq_false_iff_not]; omega
  · rw [decide_eq_false_iff_not]; omega

theorem encByte_good (a b : Nat) (hb : b ∈ encByte a) :
    b ≠ 59 ∧ b ≠ 61 ∧ isWsp b = false := by
  unfold encByte at hb
  by_cases h : unreservedByte a
  · rw [if_pos h] at hb
    rw [List.mem_singleton] at hb
    subst hb
    simp only [unreservedByte, Bool.or_eq_true, Bool.and_eq_true, decide_eq_true_eq] at h
    refine ⟨by omega, by omega, isWsp_eq_false _ (by omega)⟩
  · rw [if_neg h] at hb
    simp only [List.mem_cons, List.not_mem_nil, or_false] at hb
    rcases hb with rfl | rfl | rfl
    · exact ⟨by omega, by omega, by decide⟩
    · have := hexDigit_range (a / 16)
      exact ⟨by omega, by omega, isWsp_eq_false _ (by omega)⟩
    · have := hexDigit_range (a % 16)
      exact ⟨by omega, by omega, isWsp_eq_false _ (by omega)⟩

theorem urlencode_good (s : Str) (b : Nat) (hb : b ∈ urlencode s) :
    b ≠ 59 ∧ b ≠ 61 ∧ isWsp b = false := by
  unfold urlencode at hb
  rw [List.mem_flatten] at hb
  obtain ⟨l, hl, hbl⟩ := hb
  rw [List.mem_map] at hl
  obtain ⟨a, _, rfl⟩ := hl
  exact encByte_good a b hbl

end WasmCookies

namespace WasmCookies

theorem hexVal_hexDigit (n : Nat) (h : n < 16) : hexVal (hexDigit n) = some n := by
  unfold hexDigit
  rcases Nat.lt_or_ge n 10 with h10 | h10
  · rw [if_pos h10]
    unfold hexVal
    rw [if_pos (by omega)]
    congr 1; omega
  · rw [if_neg (by omega)]
    unfold hexVal
    rw [if_neg (by omega), if_pos (by omega)]
    congr 1; omega

theorem percentParse_cons_ne37 (b : Nat) (t : Str) (h : ¬ b = 37) :
    percentParse (b :: t) =
      match percentParse t with
      | .ok r => .ok (b :: r)
      | .error e => .error e := by
  rcases t with _ | ⟨h1, _ | ⟨h2, rest2⟩⟩
  · rw [percentParse.eq_3 b [] (by intro _ _ _ hx; cases hx), if_neg h]
  · rw [percentParse.eq_3 b [h1] (by intro _ _ _ hx; simp at hx), if_neg h]
  · rw [percentParse.eq_2, if_neg h]

theorem unreservedByte_ne_37 (b : Nat) (h : unreservedByte b = true) : b ≠ 37 := by
  simp only [unreservedByte, Bool.or_eq_true, Bool.and_eq_true, decide_eq_true_eq] at h
  omega

theorem percentParse_encByte (b : Nat) (t : Str) (hb : b < 256) :
    percentParse (encByte b ++ t) =
      match percentParse t with
      | .ok r => .ok (b :: r)
      | .error e => .error e := by
  unfold encByte
  by_cases h : unreservedByte b
  · rw [if_pos h, List.singleton_append, percentParse_cons_ne37 b t (unreservedByte_ne_37 b h)]
  · rw [if_neg h]
    have hdiv : b / 16 < 16 := by omega
    have hmod : b % 16 < 16 := by omega
    show percentParse (37 :: hexDigit (b / 16) :: hexDigit (b % 16) :: t) = _
    rw [percentParse.eq_2, if_pos rfl, hexVal_hexDigit _ hdiv, hexVal_hexDigit _ hmod]
    cases hpt : percentParse t with
    | ok r =>
      show Except.ok ((16 * (b / 16) + b % 16) :: r) = Except.ok (b :: r)
      have hb2 : 16 * (b / 16) + b % 16 = b := by omega
      rw [hb2]
    | error e => rfl

theorem percentParse_urlencode (s : Str) (h : ByteStr s) :
    percentParse (urlencode s) = .ok s := by
  induction s with
  | nil => rfl
  | cons b rest ih =>
    have hb : b < 256 := h b (List.mem_cons_self b rest)
    have hrest : ByteStr rest := fun x hx => h x (List.mem_cons_of_mem b hx)
    have hsplit : urlencode (b :: rest) = encByte b ++ urlencode rest := by
      unfold urlencode; rw [List.map_cons, List.flatten_cons]
    rw [hsplit, percentParse_encByte b _ hb, ih hrest]

theorem urldecode_urlencode (s : Str) (h1 : ByteStr s) (h2 : utf8Valid s = true) :
    urldecode (urlencode s) = .ok s := by
  unfold urldecode
  rw [percentParse_urlencode s h1]
  show (if utf8Valid s = true then Except.ok s
        else Except.error FromUrlEncodingError.Utf8CharacterError) = Except.ok s
  rw [h2]
  simp

end WasmCookies

namespace WasmCookies

theorem get_raw_eq (s n : Str) :
    get_raw s n = ((all_iter_raw s).find? fun p => decide (p.1 = n)).map (·.2) := by
  unfold get_raw all_iter_raw
  generalize splitOnByte 59 s = segs
  induction segs with
  | nil => rfl
  | cons seg rest ih =>
    rw [List.findSome?_cons, List.filterMap_cons]
    cases hp : process_key_value_str seg with
    | error e => simpa using ih
    | ok p =>
      obtain ⟨k, v⟩ := p
      by_cases hk : k = n
      · subst hk
        simp [List.find?_cons]
      · simp [List.find?_cons, hk, ih]

theorem get_eq (s n : Str) :
    get s n = ((all_iter_raw s).find? fun p => decide (p.1 = urlencode n)).map
      (fun p => urldecode p.2) := by
  unfold get all_iter_raw
  generalize splitOnByte 59 s = segs
  induction segs with
  | nil => rfl
  | cons seg rest ih =>
    rw [List.findSome?_cons, List.filterMap_cons]
    cases hp : process_key_value_str seg with
    | error e => simpa using ih
    | ok p =>
      obtain ⟨k, v⟩ := p
      by_cases hk : k = urlencode n
      · subst hk
        simp [List.find?_cons]
      · simp [List.find?_cons, hk, ih]

theorem lookupKV_insertKV (k' v k : Str) (m : List (Str × Str)) :
    lookupKV k (insertKV k' v m) = if k' = k then some v else lookupKV k m := by
  induction m with
  | nil => simp [insertKV, lookupKV]
  | cons p rest ih =>
    obtain ⟨k2, v2⟩ := p
    rw [insertKV]
    by_cases h2 : k2 = k'
    · rw [if_pos h2, lookupKV, lookupKV]
      subst h2
      split_ifs <;> rfl
    · rw [if_neg h2, lookupKV, lookupKV, ih]
      split_ifs <;> simp_all

end WasmCookies

namespace WasmCookies

theorem lookupKV_foldl_insert (l : List (Str × Str)) (m : List (Str × Str)) (k : Str) :
    lookupKV k (l.foldl (fun acc p => insertKV p.1 p.2 acc) m)
      = (l.reverse.find? fun p => decide (p.1 = k)).elim (lookupKV k m) (fun p => some p.2) := by
  induction l generalizing m with
  | nil => rfl
  | cons p rest ih =>
    rw [List.foldl_cons, ih, List.reverse_cons, List.find?_append]
    cases hf : rest.reverse.find? (fun p => decide (p.1 = k)) with
    | some q => rfl
    | none =>
      rw [lookupKV_insertKV]
      by_cases hk : p.1 = k <;> simp [List.find?_cons, hk]

theorem collectKV_error (l : List (Except AllDecodeError (Str × Str))) (m : List (Str × Str))
    (e : AllDecodeError) (h : firstErr l = some e) : collectKV l m = .error e := by
  induction l generalizing m with
  | nil => exact Option.noConfusion h
  | cons x rest ih =>
    cases x with
    | error e2 =>
      have he : some e2 = some e := h
      injection he with he
      subst he
      rfl
    | ok p => exact ih (insertKV p.1 p.2 m) h

theorem collectKV_ok_eq (l : List (Except AllDecodeError (Str × Str)))
    (m m' : List (Str × Str)) (h : collectKV l m = .ok m') :
    m' = (l.filterMap Except.toOption).foldl (fun acc p => insertKV p.1 p.2 acc) m := by
  induction l generalizing m with
  | nil =>
    have h' : Except.ok (ε := AllDecodeError) m = .ok m' := h
    injection h' with h'
    rw [List.filterMap_nil, List.foldl_nil]
    exact h'.symm
  | cons x rest ih =>
    cases x with
    | error e => exact Except.noConfusion h
    | ok p =>
      have h' : collectKV rest (insertKV p.1 p.2 m) = .ok m' := h
      show m' = ((p :: rest.filterMap Except.toOption)).foldl
        (fun acc q => insertKV q.1 q.2 acc) m
      rw [List.foldl_cons]
      exact ih (insertKV p.1 p.2 m) h'

end WasmCookies

namespace WasmCookies

/-! ## Claims -/

/-- Claim C4: for every name, value and options, `set_raw` always appends
`;samesite=` followed by the lower-cased same-site name as the final
attribute (never omitted); and
`set_raw "key" "value" CookieOptions::default()` is exactly
`"key=value;samesite=lax"`, with no other attributes for default
options. -/
theorem c4_samesite_always_appended :
    (∀ name value options, List.IsSuffix
        (asciiStr ";samesite=" ++ SameSite.cookie_string_value options.same_site)
        (set_raw name value options))
    ∧ SameSite.cookie_string_value SameSite.Lax = asciiStr "lax"
    ∧ SameSite.cookie_string_value SameSite.Strict = asciiStr "strict"
    ∧ SameSite.cookie_string_value SameSite.None = asciiStr "none"
    ∧ set_raw (asciiStr "key") (asciiStr "value") CookieOptions.default
        = asciiStr "key=value;samesite=lax" := by
  refine ⟨?_, rfl, rfl, rfl, by decide⟩
  intro name value options
  refine ⟨name ++ [61] ++ value
    ++ (match options.path with
        | some p => asciiStr ";path=" ++ p
        | none => [])
    ++ (match options.domain with
        | some d => asciiStr ";domain=" ++ d
        | none => [])
    ++ (match options.expires with
        | some e => asciiStr ";expires=" ++ e
        | none => [])
    ++ (if options.secure then asciiStr ";secure" else []), ?_⟩
  unfold set_raw
  simp [List.append_assoc]

/-- Claim C5: the attributes in `set_raw`'s output appear in the fixed
order path, domain, expires, secure, samesite, regardless of the order in
which the option setters were called; with path `/path`, domain
`example.com` and secure set the result is exactly
`"key=value;path=/path;domain=example.com;secure;samesite=lax"`. -/
theorem c5_attribute_fixed_order :
    (∀ name value p d,
        set_raw name value (((CookieOptions.default.set_secure).with_domain d).with_path p)
          = name ++ [61] ++ value ++ asciiStr ";path=" ++ p ++ asciiStr ";domain=" ++ d
              ++ asciiStr ";secure" ++ asciiStr ";samesite=" ++ asciiStr "lax"
        ∧ set_raw name value (((CookieOptions.default.with_path p).with_domain d).set_secure)
          = set_raw name value (((CookieOptions.default.set_secure).with_domain d).with_path p))
    ∧ (∀ name value p d e ss,
        set_raw name value ⟨some p, some d, some e, true, ss⟩
          = name ++ [61] ++ value ++ asciiStr ";path=" ++ p ++ asciiStr ";domain=" ++ d
              ++ asciiStr ";expires=" ++ e ++ asciiStr ";secure"
              ++ asciiStr ";samesite=" ++ SameSite.cookie_string_value ss)
    ∧ set_raw (asciiStr "key") (asciiStr "value")
        (((CookieOptions.default.with_path (asciiStr "/path")).with_domain
            (asciiStr "example.com")).set_secure)
        = asciiStr "key=value;path=/path;domain=example.com;secure;samesite=lax" := by
  refine ⟨fun name value p d => ⟨?_, rfl⟩, fun name value p d e ss => ?_, by decide⟩
  · unfold set_raw CookieOptions.default CookieOptions.set_secure CookieOptions.with_domain
      CookieOptions.with_path
    simp [SameSite.cookie_string_value, List.append_assoc]
  · unfold set_raw
    simp [List.append_assoc]

/-- Claim C7: `delete_raw name` is exactly
`name + "=;expires=Thu, 01 Jan 1970 00:00:00 GMT"` — a constant past
date, with no path, domain, secure or samesite attributes — and
`delete name` is the same string with the name percent-encoded first. -/
theorem c7_delete_fixed_string :
    (∀ name, delete_raw name
        = name ++ asciiStr "=;expires=Thu, 01 Jan 1970 00:00:00 GMT")
    ∧ (∀ name, delete name
        = urlencode name ++ asciiStr "=;expires=Thu, 01 Jan 1970 00:00:00 GMT")
    ∧ delete_raw (asciiStr "key") = asciiStr "key=;expires=Thu, 01 Jan 1970 00:00:00 GMT" := by
  exact ⟨fun name => rfl, fun name => rfl, by decide⟩

end WasmCookies

namespace WasmCookies

/-- Claim C1 counterexample: on the segment `a=b=c` (which contains two
`=`), parsing does NOT keep the later `=` in the value: the value is `b`,
not `b=c` as the claim states. -/
theorem c1_first_split_counterexample :
    all_raw (asciiStr "a=b=c") = [(asciiStr "a", asciiStr "b")]
    ∧ get_raw (asciiStr "a=b=c") (asciiStr "a") = some (asciiStr "b")
    ∧ asciiStr "b" ≠ asciiStr "b=c" := by
  refine ⟨by decide, by decide, by decide⟩

/-- Claim C1 (amended): for a segment with at least one `=`, the key is
the trimmed text before the first `=` and the value is the trimmed text
strictly between the first and the second `=` (or the end of the
segment); text from the second `=` on is discarded, not kept in the
value. -/
theorem c1_first_split_amended :
    (∀ k v, ¬ (61 : Nat) ∈ k → ¬ (61 : Nat) ∈ v →
        process_key_value_str (k ++ 61 :: v) = .ok (trimBytes k, trimBytes v))
    ∧ (∀ k v w, ¬ (61 : Nat) ∈ k → ¬ (61 : Nat) ∈ v →
        process_key_value_str (k ++ 61 :: (v ++ 61 :: w)) = .ok (trimBytes k, trimBytes v)) := by
  constructor
  · intro k v hk hv
    unfold process_key_value_str
    rw [splitOnByte_append 61 k v hk, splitOnByte_not_mem 61 v hv]
  · intro k v w hk hv
    unfold process_key_value_str
    rw [splitOnByte_append 61 k _ hk, splitOnByte_append 61 v w hv]

/-- Witness for the amended claim C1 at the segment `a=b=c`. -/
theorem c1_first_split_amended_witness :
    process_key_value_str (asciiStr "a" ++ 61 :: (asciiStr "b" ++ 61 :: asciiStr "c"))
      = .ok (trimBytes (asciiStr "a"), trimBytes (asciiStr "b")) :=
  c1_first_split_amended.2 (asciiStr "a") (asciiStr "b") (asciiStr "c")
    (by decide) (by decide)

/-- Claim C8: a segment with no `=` (including empty or whitespace-only)
contributes no pair; a segment with `=` but nothing before or after it
still yields a pair with empty key and/or value; `all_raw ""` and
`all ""` are empty; and `all_raw "a=1;garbage;b=2"` has exactly the two
entries `a → 1` and `b → 2`. -/
theorem c8_segment_edge_cases :
    (∀ seg, ¬ (61 : Nat) ∈ seg → process_key_value_str seg = .error ())
    ∧ process_key_value_str (asciiStr "=x") = .ok ([], asciiStr "x")
    ∧ process_key_value_str (asciiStr "x=") = .ok (asciiStr "x", [])
    ∧ process_key_value_str (asciiStr "=") = .ok ([], [])
    ∧ all_raw (asciiStr "") = []
    ∧ all (asciiStr "") = .ok []
    ∧ all_raw (asciiStr "a=1;garbage;b=2")
        = [(asciiStr "a", asciiStr "1"), (asciiStr "b", asciiStr "2")] := by
  refine ⟨?_, rfl, rfl, rfl, by decide, rfl, by decide⟩
  intro seg hseg
  unfold process_key_value_str
  rw [splitOnByte_not_mem 61 seg hseg]

/-- Witness for C8's universal part at the segment `garbage`. -/
theorem c8_segment_edge_cases_witness :
    process_key_value_str (asciiStr "garbage") = .error () :=
  c8_segment_edge_cases.1 (asciiStr "garbage") (by decide)

end WasmCookies

namespace WasmCookies

/-- Claim C9: `get_raw` returns the value of the first segment (in order)
whose trimmed raw key equals `name`, and `none` when no segment matches;
`get` percent-encodes `name` first, matches the encoded name against raw
keys, returns `none` when absent, and returns `some (error ..)` when the
matching segment's value fails to decode — absence and present-but-corrupt
are distinct outcomes. -/
theorem c9_get_first_match :
    (∀ s n, get_raw s n
        = ((all_iter_raw s).find? fun p => decide (p.1 = n)).map (·.2))
    ∧ (∀ s n, get s n
        = ((all_iter_raw s).find? fun p => decide (p.1 = urlencode n)).map
            (fun p => urldecode p.2))
    ∧ get (asciiStr "k=v") (asciiStr "x") = none
    ∧ get (asciiStr "k=%AA") (asciiStr "k")
        = some (.error FromUrlEncodingError.Utf8CharacterError) :=
  ⟨get_raw_eq, get_eq, rfl, rfl⟩

/-- Claim C10: `get`'s first-match rule applies even to errors — if the
first segment whose raw key equals the encoded name has a value that
fails to decode, `get` returns that error and never scans further, even
when a later segment with the same key would decode. -/
theorem c10_get_error_first_match (s n : Str) (p : Str × Str) (e : FromUrlEncodingError)
    (h1 : ((all_iter_raw s).find? fun q => decide (q.1 = urlencode n)) = some p)
    (h2 : urldecode p.2 = .error e) :
    get s n = some (.error e) := by
  rw [get_eq, h1]
  show some (urldecode p.2) = some (.error e)
  rw [h2]

/-- Witness for C10: in `k=%AA;k=ok` the first `k` segment's value fails
to decode, and `get` reports that error although the later `k=ok`
segment would decode fine. -/
theorem c10_get_error_first_match_witness :
    get (asciiStr "k=%AA;k=ok") (asciiStr "k")
      = some (.error FromUrlEncodingError.Utf8CharacterError) :=
  c10_get_error_first_match (asciiStr "k=%AA;k=ok") (asciiStr "k")
    (asciiStr "k", asciiStr "%AA") FromUrlEncodingError.Utf8CharacterError rfl rfl

/-- Claim C2: `all` is fail-fast in segment order — it returns the error
of the first pair whose key or value fails decoding; a key failure is
`Key` with the raw key, a value failure is `Value` with the decoded key;
and the two concrete examples from the claim. -/
theorem c2_all_fail_fast :
    (∀ s e, firstErr (all_iter s) = some e → all s = .error e)
    ∧ (∀ rawk rawv e, urldecode rawk = .error e →
        decodePair (rawk, rawv) = .error (.Key rawk e))
    ∧ (∀ rawk rawv k e, urldecode rawk = .ok k → urldecode rawv = .error e →
        decodePair (rawk, rawv) = .error (.Value k e))
    ∧ all (asciiStr "key1=value1;key2%AA=value2")
        = .error (.Key (asciiStr "key2%AA") FromUrlEncodingError.Utf8CharacterError)
    ∧ all (asciiStr "key1=value1;key%202=value2%AA")
        = .error (.Value (asciiStr "key 2") FromUrlEncodingError.Utf8CharacterError) := by
  refine ⟨fun s e h => collectKV_error (all_iter s) [] e h, ?_, ?_, rfl, rfl⟩
  · intro rawk rawv e h
    simp only [decodePair]
    rw [h]
  · intro rawk rawv k e h1 h2
    simp only [decodePair]
    rw [h1, h2]

/-- Witness for C2's universal part: a failing key in the only pair. -/
theorem c2_all_fail_fast_witness :
    all (asciiStr "a%AA=v")
      = .error (.Key (asciiStr "a%AA") FromUrlEncodingError.Utf8CharacterError) :=
  c2_all_fail_fast.1 (asciiStr "a%AA=v") _ rfl

/-- Claim C6: `all_raw` and `all` build their mapping with last-write-wins
semantics — looking up a key yields the value of the last segment (in
segment order) that produced that key (raw key for `all_raw`, decoded key
for `all`). -/
theorem c6_last_write_wins :
    (∀ s k, lookupKV k (all_raw s)
        = ((all_iter_raw s).reverse.find? fun p => decide (p.1 = k)).map (·.2))
    ∧ (∀ s m k, all s = .ok m →
        lookupKV k m = (((all_iter s).filterMap Except.toOption).reverse.find?
            fun p => decide (p.1 = k)).map (·.2)) := by
  constructor
  · intro s k
    unfold all_raw
    rw [lookupKV_foldl_insert]
    cases (all_iter_raw s).reverse.find? (fun p => decide (p.1 = k)) <;> rfl
  · intro s m k h
    unfold all at h
    rw [collectKV_ok_eq (all_iter s) [] m h, lookupKV_foldl_insert]
    cases ((all_iter s).filterMap Except.toOption).reverse.find?
      (fun p => decide (p.1 = k)) <;> rfl

/-- Witness for C6: in `a=1;a=3` the later segment's value `3` is the one
in the returned mapping. -/
theorem c6_last_write_wins_witness :
    all (asciiStr "a=1;a=3") = .ok [(asciiStr "a", asciiStr "3")]
    ∧ lookupKV (asciiStr "a") [(asciiStr "a", asciiStr "3")]
      = (((all_iter (asciiStr "a=1;a=3")).filterMap Except.toOption).reverse.find?
          fun p => decide (p.1 = asciiStr "a")).map (·.2) :=
  ⟨rfl, c6_last_write_wins.2 (asciiStr "a=1;a=3") [(asciiStr "a", asciiStr "3")]
    (asciiStr "a") rfl⟩

end WasmCookies

namespace WasmCookies

/-- Claim C3: round-trip — for every name and value (the value being an
arbitrary Rust string, i.e. a valid UTF-8 byte sequence, including ones
containing space, `%`, `;`, `=`), feeding the serializer's output back
into the single-cookie decoded lookup recovers the value:
`get (set name value CookieOptions::default()) name = some (ok value)`. -/
theorem c3_set_get_roundtrip (name value : Str)
    (h1 : ByteStr value) (h2 : utf8Valid value = true) :
    get (set name value CookieOptions.default) name = some (.ok value) := by
  have h59n : ¬ (59 : Nat) ∈ urlencode name := fun hb => (urlencode_good name 59 hb).1 rfl
  have h59v : ¬ (59 : Nat) ∈ urlencode value := fun hb => (urlencode_good value 59 hb).1 rfl
  have h61n : ¬ (61 : Nat) ∈ urlencode name := fun hb => (urlencode_good name 61 hb).2.1 rfl
  have h61v : ¬ (61 : Nat) ∈ urlencode value := fun hb => (urlencode_good value 61 hb).2.1 rfl
  have hwspn : ∀ b ∈ urlencode name, isWsp b = false := fun b hb => (urlencode_good name b hb).2.2
  have hwspv : ∀ b ∈ urlencode value, isWsp b = false := fun b hb => (urlencode_good value b hb).2.2
  have hset : set name value CookieOptions.default
      = (urlencode name ++ 61 :: urlencode value)
        ++ 59 :: (asciiStr "samesite=" ++ asciiStr "lax") := by
    show set_raw (urlencode name) (urlencode value) CookieOptions.default = _
    unfold set_raw CookieOptions.default
    rw [show asciiStr ";samesite=" = 59 :: asciiStr "samesite=" from rfl]
    simp [SameSite.cookie_string_value, List.append_assoc]
  have hno59 : ¬ (59 : Nat) ∈ urlencode name ++ 61 :: urlencode value := by
    intro hmem
    rcases List.mem_append.mp hmem with hmem | hmem
    · exact h59n hmem
    · rcases List.mem_cons.mp hmem with hmem | hmem
      · cases hmem
      · exact h59v hmem
  have hproc : process_key_value_str (urlencode name ++ 61 :: urlencode value)
      = .ok (urlencode name, urlencode value) := by
    unfold process_key_value_str
    rw [splitOnByte_append 61 (urlencode name) (urlencode value) h61n,
      splitOnByte_not_mem 61 (urlencode value) h61v]
    show Except.ok (trimBytes (urlencode name), trimBytes (urlencode value))
      = Except.ok (urlencode name, urlencode value)
    rw [trimBytes_eq_self (urlencode name) hwspn,
      trimBytes_eq_self (urlencode value) hwspv]
  have hfun : (match process_key_value_str (urlencode name ++ 61 :: urlencode value) with
      | .ok (key, value) =>
        if key = urlencode name then some (urldecode value) else none
      | .error _ => none) = some (urldecode (urlencode value)) := by
    rw [hproc]
    show (if (urlencode name : Str) = urlencode name
      then some (urldecode (urlencode value)) else none) = some (urldecode (urlencode value))
    rw [if_pos rfl]
  rw [hset]
  unfold get
  rw [splitOnByte_append 59 (urlencode name ++ 61 :: urlencode value) _ hno59,
    List.findSome?_cons, hfun]
  show some (urldecode (urlencode value)) = some (Except.ok value)
  rw [urldecode_urlencode value h1 h2]

/-- Witness for C3 at name `a b` and value `c;= %d` (space, `%`, `;`,
`=` all present). -/
theorem c3_set_get_roundtrip_witness :
    get (set (asciiStr "a b") (asciiStr "c;= %d") CookieOptions.default) (asciiStr "a b")
      = some (.ok (asciiStr "c;= %d")) :=
  c3_set_get_roundtrip (asciiStr "a b") (asciiStr "c;= %d") (by decide) (by decide)

end WasmCookies
